import Mathlib

/-!
Verification of the similarity engine of `src/similarity.py`
(board-game collection visualizer).

Python dicts are modelled as association lists `List (String × _)` in
insertion order; Python floats are modelled as exact real numbers, with the
raw (parsed) numeric fields of a game record carried as `Option ℚ`
(`none` = missing or unparsable, coerced to `0.0` by the engine).
`math.sqrt` is `Real.sqrt`; the stable `list.sort(key=..., reverse=True)`
is `List.mergeSort` with the "score of the left argument is at least the
score of the right argument" comparator.
-/

/-- A game record as consumed by the similarity engine: a display name,
the seven optional numeric attributes, and the four categorical
attribute-name lists (one entry per `{id, name}` pair of the source, with
`""` standing for a missing name, which Python treats as falsy). -/
structure Game where
  name : String
  averagerating : Option ℚ
  averageweight : Option ℚ
  playingtime : Option ℚ
  minplayers : Option ℚ
  maxplayers : Option ℚ
  minage : Option ℚ
  year : Option ℚ
  mechanics : List String
  categories : List String
  designers : List String
  publishers : List String

instance : Inhabited Game :=
  ⟨⟨"", none, none, none, none, none, none, none, [], [], [], []⟩⟩

/-- Keys of an association list (Python `dict.keys()`, insertion order). -/
def keys {α : Type} (d : List (String × α)) : List String :=
  d.map Prod.fst

/-- Invariant of every Python dict: its keys are pairwise distinct. -/
def NodupKeys {α : Type} (d : List (String × α)) : Prop :=
  (keys d).Nodup

/-- Python `{**d1, **d2}`: the keys of `d1` in order (values overridden by
`d2` where present), then the keys of `d2` not already in `d1`. -/
def dictMerge (d1 d2 : List (String × Game)) : List (String × Game) :=
  d1.map (fun kv => (kv.1, (List.lookup kv.1 d2).getD kv.2)) ++
    d2.filter (fun kv => kv.1 ∉ keys d1)

/-- `jaccard_similarity` (`similarity.py` lines 12-22). -/
def jaccard_similarity (set1 set2 : Finset String) : ℚ :=
  if set1 = ∅ ∧ set2 = ∅ then 1
  else if set1 = ∅ ∨ set2 = ∅ then 0
  else if 0 < (set1 ∪ set2).card
    then ((set1 ∩ set2).card : ℚ) / ((set1 ∪ set2).card : ℚ)
  else 0

/-- Sum Σ aᵢ·bᵢ over the zipped vectors (`sum(a * b for a, b in zip(vec1, vec2))`). -/
def dotProd (vec1 vec2 : List ℝ) : ℝ :=
  (List.zipWith (fun a b => a * b) vec1 vec2).sum

/-- Vector magnitude `math.sqrt(sum(a * a for a in vec))`. -/
noncomputable def magnitude (vec : List ℝ) : ℝ :=
  Real.sqrt ((vec.map (fun a => a * a)).sum)

/-- `cosine_similarity` (`similarity.py` lines 25-39). -/
noncomputable def cosine_similarity (vec1 vec2 : List ℝ) : ℝ :=
  if vec1.length ≠ vec2.length then 0
  else if magnitude vec1 = 0 ∨ magnitude vec2 = 0 then 0
  else dotProd vec1 vec2 / (magnitude vec1 * magnitude vec2)

/-- The seven raw numeric features of a game in the fixed order of
`feature_names`, each coerced to a float with missing/unparsable → `0.0`. -/
def rawFeatures (g : Game) : List ℚ :=
  [g.averagerating.getD 0, g.averageweight.getD 0, g.playingtime.getD 0,
   g.minplayers.getD 0, g.maxplayers.getD 0, g.minage.getD 0, g.year.getD 0]

/-- `all_values[feature]` of `normalize_numeric_features`: the coerced value
of feature `i` for every game of the set, in insertion order. -/
def featureVals (games : List (String × Game)) (i : ℕ) : List ℚ :=
  games.map (fun kv => (rawFeatures kv.2).getD i 0)

/-- `mean = sum(values) / len(values) if values else 0.0`. -/
def featureMean (games : List (String × Game)) (i : ℕ) : ℚ :=
  if featureVals games i = [] then 0
  else (featureVals games i).sum / (featureVals games i).length

/-- `variance = sum((x - mean) ** 2 for x in values) / len(values) if values else 0.0`. -/
def featureVar (games : List (String × Game)) (i : ℕ) : ℚ :=
  if featureVals games i = [] then 0
  else ((featureVals games i).map
    (fun x => (x - featureMean games i) ^ 2)).sum / (featureVals games i).length

/-- `std = math.sqrt(variance) if variance > 0 else 1.0`. -/
noncomputable def featureStd (games : List (String × Game)) (i : ℕ) : ℝ :=
  if 0 < featureVar games i then Real.sqrt (featureVar games i) else 1

/-- `normalize_numeric_features` (`similarity.py` lines 42-84): every game id
of the input is mapped, in order, to the vector
`[(features[i] - means[i]) / stds[i] for i in range(7)]`. -/
noncomputable def normalize_numeric_features (games : List (String × Game)) :
    List (String × List ℝ) :=
  games.map (fun kv => (kv.1, (List.range 7).map (fun i =>
    (((rawFeatures kv.2).getD i 0 : ℚ) - (featureMean games i : ℚ)) / featureStd games i)))

/-- `set(m.get("name", "") for m in l if m.get("name"))`: the attribute names
of one categorical list, blank (falsy) names excluded, case untouched. -/
def namesSet (l : List String) : Finset String :=
  (l.filter (fun n => n ≠ "")).toFinset

/-- `compute_game_similarity` (`similarity.py` lines 87-134). -/
noncomputable def compute_game_similarity (game1 game2 : Game)
    (normalized_features1 normalized_features2 : List ℝ)
    (mechanics_weight categories_weight numeric_weight designers_weight
      publishers_weight : ℝ) : ℝ :=
  let mechanics_sim := jaccard_similarity (namesSet game1.mechanics) (namesSet game2.mechanics)
  let categories_sim := jaccard_similarity (namesSet game1.categories) (namesSet game2.categories)
  let numeric_sim := cosine_similarity normalized_features1 normalized_features2
  let designers_sim := jaccard_similarity (namesSet game1.designers) (namesSet game2.designers)
  let publishers_sim := jaccard_similarity (namesSet game1.publishers) (namesSet game2.publishers)
  let total_weight := mechanics_weight + categories_weight + numeric_weight +
    designers_weight + publishers_weight
  (mechanics_weight * (mechanics_sim : ℝ) + categories_weight * (categories_sim : ℝ) +
    numeric_weight * numeric_sim + designers_weight * (designers_sim : ℝ) +
    publishers_weight * (publishers_sim : ℝ)) / total_weight

/-- All pairs `(l[i], l[j])` with `i < j`, in the order of the nested loop
`for i in range(n): for j in range(i + 1, n)`. -/
def allPairs {α : Type} : List α → List (α × α)
  | [] => []
  | x :: xs => xs.map (fun y => (x, y)) ++ allPairs xs

/-- Dict access `games[id]` (total, because every id used comes from the keys). -/
def lookupGame (games : List (String × Game)) (id : String) : Game :=
  (List.lookup id games).getD default

/-- Dict access `normalized_features[id]`. -/
def lookupVec (nf : List (String × List ℝ)) (id : String) : List ℝ :=
  (List.lookup id nf).getD []

/-- Comparator of `list.sort(key=..., reverse=True)`: `a` may precede `b`
iff the key of `a` is at least the key of `b`. -/
noncomputable def scoreLe {α : Type} (f : α → ℝ) : α → α → Bool :=
  fun a b => decide (f b ≤ f a)

/-- The similarity score the edge builder computes for a pair of ids, given
the normalized-feature table `nf`. -/
noncomputable def edgeScore (games : List (String × Game))
    (nf : List (String × List ℝ)) (mw cw nw dw pw : ℝ) (a b : String) : ℝ :=
  compute_game_similarity (lookupGame games a) (lookupGame games b)
    (lookupVec nf a) (lookupVec nf b) mw cw nw dw pw

/-- `compute_similarity_edges` (`similarity.py` lines 137-184). -/
noncomputable def compute_similarity_edges (games : List (String × Game))
    (edge_threshold : ℝ) (mw cw nw dw pw : ℝ) : List (String × String × ℝ) :=
  let game_ids := keys games
  let nf := normalize_numeric_features games
  let edges := (allPairs game_ids).filterMap (fun p =>
    if edge_threshold ≤ edgeScore games nf mw cw nw dw pw p.1 p.2
    then some (p.1, p.2, edgeScore games nf mw cw nw dw pw p.1 p.2)
    else none)
  edges.mergeSort (scoreLe (fun e => e.2.2))

/-- One recommendation entry of `compute_cross_similarities`
(the dict `{"id": ..., "name": ..., "score": ..., "bggUrl": ...}`). -/
structure RecEntry where
  id : String
  name : String
  score : ℝ
  bggUrl : String

/-- `compute_cross_similarities` (`similarity.py` lines 187-233). -/
noncomputable def compute_cross_similarities
    (owned_games candidate_games : List (String × Game)) (top_k : ℕ)
    (mw cw nw dw pw : ℝ) : List (String × List RecEntry) :=
  let all_games := dictMerge owned_games candidate_games
  let nf := normalize_numeric_features all_games
  owned_games.map (fun og =>
    let cands := candidate_games.filterMap (fun cg =>
      if cg.1 ∈ keys owned_games then none
      else some ⟨cg.1, cg.2.name,
        compute_game_similarity og.2 cg.2 (lookupVec nf og.1) (lookupVec nf cg.1)
          mw cw nw dw pw,
        "https://boardgamegeek.com/boardgame/" ++ cg.1⟩)
    (og.1, (cands.mergeSort (scoreLe RecEntry.score)).take top_k))

/-- One entry of `find_similar_owned_games`
(the dict `{"id": ..., "name": ..., "score": ...}`). -/
structure SimEntry where
  id : String
  name : String
  score : ℝ

/-- `find_similar_owned_games` (`similarity.py` lines 236-266). -/
noncomputable def find_similar_owned_games (target_game : Game)
    (owned_games : List (String × Game)) (top_k : ℕ)
    (mw cw nw dw pw : ℝ) : List SimEntry :=
  let all_games := dictMerge owned_games [("target", target_game)]
  let nf := normalize_numeric_features all_games
  let similarities := owned_games.map (fun og =>
    (⟨og.1, og.2.name,
      compute_game_similarity target_game og.2 (lookupVec nf "target")
        (lookupVec nf og.1) mw cw nw dw pw⟩ : SimEntry))
  (similarities.mergeSort (scoreLe SimEntry.score)).take top_k

/-! ### Statements of the claimed properties, and concrete records
used by the witnesses and counterexamples -/

/-- The behaviour claimed for `jaccard_similarity`: 1.0 when both sets are
empty, 0.0 when exactly one is empty, intersection over union otherwise,
and symmetry. -/
def JaccardSpec (s1 s2 : Finset String) : Prop :=
  (s1 = ∅ → s2 = ∅ → jaccard_similarity s1 s2 = 1) ∧
  (s1 = ∅ → s2 ≠ ∅ → jaccard_similarity s1 s2 = 0) ∧
  (s1 ≠ ∅ → s2 = ∅ → jaccard_similarity s1 s2 = 0) ∧
  (s1 ≠ ∅ → s2 ≠ ∅ →
    jaccard_similarity s1 s2 = ((s1 ∩ s2).card : ℚ) / ((s1 ∪ s2).card : ℚ)) ∧
  jaccard_similarity s1 s2 = jaccard_similarity s2 s1

/-- The behaviour claimed for `cosine_similarity`: 0.0 on a length mismatch
or a zero-magnitude vector, otherwise dot product over the product of
magnitudes; self-similarity 1.0 for a vector with a non-zero entry,
0.0 against the zero vector, and symmetry. -/
def CosineSpec (v w : List ℝ) : Prop :=
  (v.length ≠ w.length → cosine_similarity v w = 0) ∧
  (magnitude v = 0 ∨ magnitude w = 0 → cosine_similarity v w = 0) ∧
  (v.length = w.length → magnitude v ≠ 0 → magnitude w ≠ 0 →
    cosine_similarity v w = dotProd v w / (magnitude v * magnitude w)) ∧
  ((∃ x ∈ v, x ≠ 0) → cosine_similarity v v = 1) ∧
  cosine_similarity v (List.replicate v.length 0) = 0 ∧
  cosine_similarity v w = cosine_similarity w v

/-- A game record with the blank (falsy) names dropped from all four
categorical attribute lists. -/
def scrubBlanks (g : Game) : Game :=
  { g with
    mechanics := g.mechanics.filter (fun n => n ≠ ""),
    categories := g.categories.filter (fun n => n ≠ ""),
    designers := g.designers.filter (fun n => n ≠ ""),
    publishers := g.publishers.filter (fun n => n ≠ "") }

/-- A record whose only categorical attribute is the mechanic name
"Dice Rolling". -/
def gMechUpper : Game := { (default : Game) with mechanics := ["Dice Rolling"] }

/-- The same record with the mechanic name in lower case. -/
def gMechLower : Game := { (default : Game) with mechanics := ["dice rolling"] }

/-- The vector `normalize_numeric_features` produces for one game of the
set: the body of the `map`, factored out for reuse in the lemmas. -/
noncomputable def normVec (games : List (String × Game)) (g : Game) : List ℝ :=
  (List.range 7).map (fun i =>
    (((rawFeatures g).getD i 0 : ℚ) - (featureMean games i : ℚ)) / featureStd games i)

/-- Arithmetic mean of feature `i` over the set, following the spec's
"compute arithmetic mean ... per feature over that collected set"
(assumes a non-empty set). -/
def specMean (games : List (String × Game)) (i : ℕ) : ℚ :=
  (featureVals games i).sum / (featureVals games i).length

/-- Population variance of feature `i` over the set, per the spec's
"population standard deviation" (assumes a non-empty set). -/
def specVar (games : List (String × Game)) (i : ℕ) : ℚ :=
  ((featureVals games i).map (fun x => (x - specMean games i) ^ 2)).sum /
    (featureVals games i).length

/-- The spec's standard deviation: "if standard deviation is zero
(all values identical ...), substitute 1.0". -/
noncomputable def specStd (games : List (String × Game)) (i : ℕ) : ℝ :=
  if specVar games i = 0 then 1 else Real.sqrt (specVar games i)

/-- The behaviour claimed for `normalize_numeric_features` over a non-empty
set: one vector per input id, of length 7, whose component `i` is
`(raw[i] − mean[i]) / std[i]` with the spec's mean/std, and a constant
feature column normalizes to all zeros. -/
def NormalizeSpec (games : List (String × Game)) : Prop :=
  keys (normalize_numeric_features games) = keys games ∧
  (∀ kv ∈ games, ∃ v, (kv.1, v) ∈ normalize_numeric_features games ∧ v.length = 7 ∧
    ∀ i, i < 7 →
      v.getD i 0 =
        (((rawFeatures kv.2).getD i 0 : ℚ) - (specMean games i : ℚ)) / specStd games i) ∧
  (∀ i, i < 7 →
    (∃ c : ℚ, ∀ kv ∈ games, (rawFeatures kv.2).getD i 0 = c) →
    ∀ q ∈ normalize_numeric_features games, q.2.getD i 0 = 0)

/-- A record all seven of whose numeric fields are absent. -/
def NoNumerics (g : Game) : Prop :=
  g.averagerating = none ∧ g.averageweight = none ∧ g.playingtime = none ∧
  g.minplayers = none ∧ g.maxplayers = none ∧ g.minage = none ∧ g.year = none

/-- The claimed bound for C9: with the default weights, the similarity of
two records through the vectors that `normalize_numeric_features` assigns
to their ids lies in `[0,1]`. -/
def ScoreInUnit (gs : List (String × Game)) (id1 id2 : String)
    (g1 g2 : Game) : Prop :=
  0 ≤ compute_game_similarity g1 g2
      (lookupVec (normalize_numeric_features gs) id1)
      (lookupVec (normalize_numeric_features gs) id2) 0.4 0.25 0.2 0.1 0.05 ∧
  compute_game_similarity g1 g2
      (lookupVec (normalize_numeric_features gs) id1)
      (lookupVec (normalize_numeric_features gs) id2) 0.4 0.25 0.2 0.1 0.05 ≤ 1

/-- The behaviour claimed for `compute_similarity_edges`: every returned
triple joins two distinct input ids at or above the threshold with the
score computed from the whole-set normalization; every unordered pair of
distinct ids whose score reaches the threshold appears (in exactly one
orientation, exactly once); and the result is sorted by score descending. -/
def EdgesSpec (games : List (String × Game)) (t mw cw nw dw pw : ℝ) : Prop :=
  (∀ e ∈ compute_similarity_edges games t mw cw nw dw pw,
    e.1 ≠ e.2.1 ∧ e.1 ∈ keys games ∧ e.2.1 ∈ keys games ∧ t ≤ e.2.2 ∧
    e.2.2 = edgeScore games (normalize_numeric_features games) mw cw nw dw pw e.1 e.2.1) ∧
  (∀ a b : String, a ∈ keys games → b ∈ keys games → a ≠ b →
    t ≤ edgeScore games (normalize_numeric_features games) mw cw nw dw pw a b →
    (a, b, edgeScore games (normalize_numeric_features games) mw cw nw dw pw a b) ∈
      compute_similarity_edges games t mw cw nw dw pw ∨
    (b, a, edgeScore games (normalize_numeric_features games) mw cw nw dw pw b a) ∈
      compute_similarity_edges games t mw cw nw dw pw) ∧
  ((compute_similarity_edges games t mw cw nw dw pw).map
    (fun e => (e.1, e.2.1))).Nodup ∧
  (∀ a b : String,
    (a, b) ∈ (compute_similarity_edges games t mw cw nw dw pw).map (fun e => (e.1, e.2.1)) →
    (b, a) ∉ (compute_similarity_edges games t mw cw nw dw pw).map (fun e => (e.1, e.2.1))) ∧
  (compute_similarity_edges games t mw cw nw dw pw).Sorted (fun e f => f.2.2 ≤ e.2.2)

/-- The behaviour claimed for `compute_cross_similarities`: the keys of the
result are exactly the owned ids in order, each value is at most `top_k`
entries carrying a candidate's id, name (and reference URL), sorted by
score descending, and a game with no eligible candidate gets `[]`. -/
def CrossSpec (owned cands : List (String × Game)) (k : ℕ)
    (mw cw nw dw pw : ℝ) : Prop :=
  keys (compute_cross_similarities owned cands k mw cw nw dw pw) = keys owned ∧
  ∀ p ∈ compute_cross_similarities owned cands k mw cw nw dw pw,
    p.2.length ≤ k ∧
    p.2.Sorted (fun e f => f.score ≤ e.score) ∧
    (∀ e ∈ p.2, ∃ cg ∈ cands, e.id = cg.1 ∧ e.name = cg.2.name ∧
      e.bggUrl = "https://boardgamegeek.com/boardgame/" ++ cg.1) ∧
    ((∀ cg ∈ cands, cg.1 ∈ keys owned) → p.2 = [])

/-- The self-exclusion behaviour claimed for C6: the recommendation list
returned for `id` contains no entry whose candidate id is `id`. -/
def SelfExclusionSpec (owned cands : List (String × Game)) (k : ℕ)
    (mw cw nw dw pw : ℝ) (id : String) : Prop :=
  ∀ l, (id, l) ∈ compute_cross_similarities owned cands k mw cw nw dw pw →
    ∀ e ∈ l, e.id ≠ id

/-- The behaviour claimed for `find_similar_owned_games`: at most `top_k`
entries, sorted by score descending, each carrying the id and name of an
owned game and its similarity to the target computed through the
normalization of the owned games together with the target (stored under
the key "target"). -/
def FindSpec (target : Game) (owned : List (String × Game)) (k : ℕ)
    (mw cw nw dw pw : ℝ) : Prop :=
  (find_similar_owned_games target owned k mw cw nw dw pw).length ≤ k ∧
  (find_similar_owned_games target owned k mw cw nw dw pw).Sorted
    (fun e f => f.score ≤ e.score) ∧
  ∀ e ∈ find_similar_owned_games target owned k mw cw nw dw pw,
    ∃ og ∈ owned, e.id = og.1 ∧ e.name = og.2.name ∧
      e.score = compute_game_similarity target og.2
        (lookupVec (normalize_numeric_features
          (dictMerge owned [("target", target)])) "target")
        (lookupVec (normalize_numeric_features
          (dictMerge owned [("target", target)])) og.1)
        mw cw nw dw pw

/-! ### Basic lemmas about the component similarities -/

lemma jaccard_both_empty : jaccard_similarity ∅ ∅ = 1 := by
  simp [jaccard_similarity]

lemma jaccard_eval (s1 s2 : Finset String) (h1 : s1 ≠ ∅) (h2 : s2 ≠ ∅) :
    jaccard_similarity s1 s2 = ((s1 ∩ s2).card : ℚ) / ((s1 ∪ s2).card : ℚ) := by
  have hu : s1 ∪ s2 ≠ ∅ := fun h => h1 (Finset.union_eq_empty.mp h).1
  have hc : 0 < (s1 ∪ s2).card :=
    Finset.card_pos.mpr (Finset.nonempty_iff_ne_empty.mpr hu)
  rw [jaccard_similarity, if_neg (fun h => h1 h.1), if_neg (by tauto), if_pos hc]

lemma jaccard_comm (s1 s2 : Finset String) :
    jaccard_similarity s1 s2 = jaccard_similarity s2 s1 := by
  by_cases h1 : s1 = ∅ <;> by_cases h2 : s2 = ∅ <;>
    simp [jaccard_similarity, h1, h2, Finset.inter_comm, Finset.union_comm]

lemma jaccard_nonneg (s1 s2 : Finset String) : 0 ≤ jaccard_similarity s1 s2 := by
  unfold jaccard_similarity
  split_ifs <;> positivity

lemma jaccard_le_one (s1 s2 : Finset String) : jaccard_similarity s1 s2 ≤ 1 := by
  unfold jaccard_similarity
  split_ifs with h1 h2 h3
  · norm_num
  · norm_num
  · rw [div_le_one (by exact_mod_cast h3)]
    exact_mod_cast Finset.card_le_card Finset.inter_subset_union
  · norm_num

lemma sum_map_sq_nonneg (v : List ℝ) : 0 ≤ (v.map (fun a => a * a)).sum := by
  apply List.sum_nonneg
  intro x hx
  obtain ⟨a, _, rfl⟩ := List.mem_map.mp hx
  exact mul_self_nonneg a

lemma magnitude_nonneg (v : List ℝ) : 0 ≤ magnitude v := Real.sqrt_nonneg _

lemma magnitude_eq_zero (v : List ℝ) :
    magnitude v = 0 ↔ (v.map (fun a => a * a)).sum = 0 := by
  unfold magnitude
  rw [Real.sqrt_eq_zero']
  constructor
  · intro h
    exact le_antisymm h (sum_map_sq_nonneg v)
  · intro h
    exact h.le

lemma sum_map_sq_eq_zero (v : List ℝ) :
    (v.map (fun a => a * a)).sum = 0 ↔ ∀ x ∈ v, x = 0 := by
  induction v with
  | nil => simp
  | cons a l ih =>
    simp only [List.map_cons, List.sum_cons, List.mem_cons]
    rw [add_eq_zero_iff_of_nonneg (mul_self_nonneg a) (sum_map_sq_nonneg l)]
    rw [mul_self_eq_zero, ih]
    constructor
    · rintro ⟨rfl, h⟩ x (rfl | hx)
      · rfl
      · exact h x hx
    · intro h
      exact ⟨h a (Or.inl rfl), fun x hx => h x (Or.inr hx)⟩

lemma dotProd_self (v : List ℝ) : dotProd v v = (v.map (fun a => a * a)).sum := by
  induction v with
  | nil => rfl
  | cons a l ih => simp [dotProd, List.zipWith_cons_cons]

lemma dotProd_comm (v w : List ℝ) : dotProd v w = dotProd w v := by
  induction v generalizing w with
  | nil => cases w <;> rfl
  | cons a v ih =>
    cases w with
    | nil => rfl
    | cons b w =>
      simp only [dotProd, List.zipWith_cons_cons, List.sum_cons] at ih ⊢
      rw [mul_comm, ih w]

lemma cosine_self_of_magnitude_ne_zero {v : List ℝ} (h : magnitude v ≠ 0) :
    cosine_similarity v v = 1 := by
  unfold cosine_similarity
  rw [if_neg (by simp), if_neg (by tauto)]
  have hs : (v.map (fun a => a * a)).sum ≠ 0 := fun hz => h ((magnitude_eq_zero v).mpr hz)
  rw [dotProd_self]
  unfold magnitude
  rw [Real.mul_self_sqrt (sum_map_sq_nonneg v)]
  exact div_self hs

lemma cosine_comm (v w : List ℝ) :
    cosine_similarity v w = cosine_similarity w v := by
  by_cases hl : v.length = w.length
  · by_cases hm : magnitude v = 0 ∨ magnitude w = 0
    · have hm' : magnitude w = 0 ∨ magnitude v = 0 := hm.symm
      simp [cosine_similarity, hl, hm, hm']
    · have hm' : ¬(magnitude w = 0 ∨ magnitude v = 0) := fun h => hm h.symm
      simp only [cosine_similarity, hl, ne_eq, not_true_eq_false, if_false,
        if_neg hm, if_neg hm']
      rw [dotProd_comm, mul_comm]
  · have hl' : w.length ≠ v.length := fun h => hl h.symm
    simp [cosine_similarity, hl, hl']

/-! ### C7: properties of `jaccard_similarity` -/

/-- C7: `jaccard_similarity` returns 1.0 when both input sets are empty,
0.0 when exactly one is empty, and |intersection| / |union| otherwise, and
it is symmetric (the `sim({a,b},{b,c}) = 1/3` instance is checked in the
witness). -/
theorem jaccard_similarity_properties (s1 s2 : Finset String) :
    JaccardSpec s1 s2 := by
  refine ⟨?_, ?_, ?_, ?_, jaccard_comm s1 s2⟩
  · intro h1 h2
    simp [jaccard_similarity, h1, h2]
  · intro h1 h2
    simp [jaccard_similarity, h1, h2]
  · intro h1 h2
    simp [jaccard_similarity, h1, h2]
  · exact jaccard_eval s1 s2

/-- Witness for C7 at concrete sets, including the `1/3` instance. -/
theorem jaccard_similarity_properties_witness :
    JaccardSpec {"a", "b"} {"b", "c"} ∧
    jaccard_similarity {"a", "b"} {"b", "c"} = 1 / 3 := by
  constructor
  · exact jaccard_similarity_properties {"a", "b"} {"b", "c"}
  · have h := (jaccard_similarity_properties {"a", "b"} {"b", "c"}).2.2.2.1
      (by decide) (by decide)
    rw [h, show (({"a", "b"} : Finset String) ∩ {"b", "c"}).card = 1 by decide,
      show (({"a", "b"} : Finset String) ∪ {"b", "c"}).card = 3 by decide]
    norm_num

/-! ### C8: properties of `cosine_similarity` -/

/-- C8: `cosine_similarity` returns 0.0 when the vectors have different
lengths or either has zero magnitude, and otherwise the dot product divided
by the product of the magnitudes; hence `sim(v, v) = 1.0` for non-zero `v`,
`sim(v, 0) = 0.0`, and it is symmetric. -/
theorem cosine_similarity_properties (v w : List ℝ) : CosineSpec v w := by
  refine ⟨?_, ?_, ?_, ?_, ?_, cosine_comm v w⟩
  · intro h
    simp [cosine_similarity, h]
  · intro h
    by_cases hl : v.length = w.length
    · simp [cosine_similarity, hl, h]
    · simp [cosine_similarity, hl]
  · intro hl hv hw
    have hm : ¬(magnitude v = 0 ∨ magnitude w = 0) := by tauto
    simp [cosine_similarity, hl, hm]
  · intro ⟨x, hx, hxne⟩
    apply cosine_self_of_magnitude_ne_zero
    intro h
    have hz := (sum_map_sq_eq_zero v).mp ((magnitude_eq_zero v).mp h)
    exact hxne (hz x hx)
  · have hz : magnitude (List.replicate v.length (0 : ℝ)) = 0 := by
      rw [magnitude_eq_zero, sum_map_sq_eq_zero]
      intro x hx
      exact List.eq_of_mem_replicate hx
    simp [cosine_similarity, List.length_replicate, hz]

/-- Witness for C8 at concrete vectors. -/
theorem cosine_similarity_properties_witness :
    CosineSpec [3, 4] [0, 0] ∧ cosine_similarity [3, 4] [3, 4] = 1 := by
  constructor
  · exact cosine_similarity_properties [3, 4] [0, 0]
  · exact (cosine_similarity_properties [3, 4] [0, 0]).2.2.2.1
      ⟨3, by simp, by norm_num⟩

/-! ### C4: attribute-name sets are case-SENSITIVE, blanks excluded -/

lemma namesSet_filter_blank (l : List String) :
    namesSet (l.filter (fun n => n ≠ "")) = namesSet l := by
  simp [namesSet, List.filter_filter]

lemma cosine_nil : cosine_similarity [] [] = 0 := by
  simp [cosine_similarity, magnitude, dotProd]

/-- Counterexample to C4 as stated: changing only the letter case of an
attribute name changes the score returned by `compute_game_similarity`
(the code builds the name sets verbatim, without lower-casing). -/
theorem game_similarity_not_case_insensitive_cex :
    compute_game_similarity gMechUpper gMechLower [] [] 0.4 0.25 0.2 0.1 0.05 ≠
    compute_game_similarity gMechUpper gMechUpper [] [] 0.4 0.25 0.2 0.1 0.05 := by
  have c0 : (namesSet gMechUpper.mechanics ∩ namesSet gMechLower.mechanics).card = 0 := by
    decide
  have c2 : (namesSet gMechUpper.mechanics ∪ namesSet gMechLower.mechanics).card = 2 := by
    decide
  have c1 : (namesSet gMechUpper.mechanics ∩ namesSet gMechUpper.mechanics).card = 1 := by
    decide
  have c1' : (namesSet gMechUpper.mechanics ∪ namesSet gMechUpper.mechanics).card = 1 := by
    decide
  have h1 : jaccard_similarity (namesSet gMechUpper.mechanics)
      (namesSet gMechLower.mechanics) = 0 := by
    rw [jaccard_eval _ _ (by decide) (by decide), c0, c2]
    norm_num
  have h2 : jaccard_similarity (namesSet gMechUpper.mechanics)
      (namesSet gMechUpper.mechanics) = 1 := by
    rw [jaccard_eval _ _ (by decide) (by decide), c1, c1']
    norm_num
  have hcat : namesSet gMechUpper.categories = ∅ := by decide
  have hdes : namesSet gMechUpper.designers = ∅ := by decide
  have hpub : namesSet gMechUpper.publishers = ∅ := by decide
  have hcat' : namesSet gMechLower.categories = ∅ := by decide
  have hdes' : namesSet gMechLower.designers = ∅ := by decide
  have hpub' : namesSet gMechLower.publishers = ∅ := by decide
  simp only [compute_game_similarity, hcat, hdes, hpub, hcat', hdes', hpub',
    h1, h2, jaccard_both_empty, cosine_nil]
  norm_num

/-- C4 (amended): the four attribute-name sets are built case-sensitively
with blank names excluded — dropping blank-named attributes from either
record leaves the score unchanged (case changes can alter it, as the
counterexample shows). -/
theorem game_similarity_ignores_blank_names (g1 g2 : Game) (v1 v2 : List ℝ)
    (mw cw nw dw pw : ℝ) :
    compute_game_similarity (scrubBlanks g1) (scrubBlanks g2) v1 v2 mw cw nw dw pw =
    compute_game_similarity g1 g2 v1 v2 mw cw nw dw pw := by
  simp only [compute_game_similarity, scrubBlanks, namesSet_filter_blank]

/-! ### C2: empty candidate set -/

/-- Counterexample to C2 as stated: with one owned game and an empty
candidate mapping, `compute_cross_similarities` returns the owned id mapped
to an empty list — not an empty mapping. -/
theorem cross_similarities_empty_candidates_cex :
    compute_cross_similarities [("a", (default : Game))] [] 5 0.4 0.25 0.2 0.1 0.05 ≠
      [] ∧
    compute_cross_similarities [("a", (default : Game))] [] 5 0.4 0.25 0.2 0.1 0.05 =
      [("a", [])] := by
  constructor
  · simp [compute_cross_similarities]
  · simp [compute_cross_similarities]

/-- C2 (amended): with an empty candidate mapping the function raises no
error and returns every owned game id mapped to an empty recommendation
list (so the result is the empty mapping only when the owned mapping is
also empty). -/
theorem cross_similarities_empty_candidates (owned : List (String × Game))
    (top_k : ℕ) (mw cw nw dw pw : ℝ) :
    compute_cross_similarities owned [] top_k mw cw nw dw pw =
      owned.map (fun og => (og.1, [])) := by
  simp [compute_cross_similarities]

/-! ### C5: `normalize_numeric_features` -/

lemma normalize_eq_map (games : List (String × Game)) :
    normalize_numeric_features games =
      games.map (fun kv => (kv.1, normVec games kv.2)) := rfl

lemma featureVals_ne_nil {games : List (String × Game)} (h : games ≠ []) (i : ℕ) :
    featureVals games i ≠ [] := by
  simp [featureVals, h]

lemma featureMean_eq_specMean {games : List (String × Game)} (h : games ≠ [])
    (i : ℕ) : featureMean games i = specMean games i := by
  unfold featureMean specMean
  rw [if_neg (featureVals_ne_nil h i)]

lemma featureVar_eq_specVar {games : List (String × Game)} (h : games ≠ [])
    (i : ℕ) : featureVar games i = specVar games i := by
  unfold featureVar specVar
  rw [if_neg (featureVals_ne_nil h i), featureMean_eq_specMean h]

lemma featureVar_nonneg (games : List (String × Game)) (i : ℕ) :
    0 ≤ featureVar games i := by
  unfold featureVar
  split_ifs
  · exact le_refl 0
  · apply div_nonneg
    · apply List.sum_nonneg
      intro x hx
      obtain ⟨a, _, rfl⟩ := List.mem_map.mp hx
      positivity
    · positivity

lemma featureStd_eq_specStd {games : List (String × Game)} (h : games ≠ [])
    (i : ℕ) : featureStd games i = specStd games i := by
  unfold featureStd specStd
  rw [← featureVar_eq_specVar h]
  rcases eq_or_lt_of_le (featureVar_nonneg games i) with heq | hlt
  · rw [if_neg (by rw [← heq]; exact lt_irrefl 0), if_pos heq.symm]
  · rw [if_pos hlt, if_neg hlt.ne']

lemma normVec_length (games : List (String × Game)) (g : Game) :
    (normVec games g).length = 7 := by
  simp [normVec]

lemma normVec_getD (games : List (String × Game)) (g : Game) {i : ℕ}
    (h : i < 7) :
    (normVec games g).getD i 0 =
      (((rawFeatures g).getD i 0 : ℚ) - (featureMean games i : ℚ)) /
        featureStd games i := by
  unfold normVec
  rw [List.getD_eq_getElem?_getD, List.getElem?_map, List.getElem?_range h]
  rfl

/-- C5: over a non-empty game set, `normalize_numeric_features` returns one
vector per game id, of fixed length 7, with component `i` equal to
`(raw[i] − mean[i]) / std[i]` (missing raw values coerced to 0, zero
standard deviation replaced by 1), and any all-identical feature column
normalizes to zeros.  The function is total, so it never raises. -/
theorem normalize_numeric_features_correct (games : List (String × Game))
    (h : games ≠ []) : NormalizeSpec games := by
  refine ⟨?_, ?_, ?_⟩
  · simp [keys, normalize_numeric_features, List.map_map, Function.comp_def]
  · intro kv hkv
    refine ⟨normVec games kv.2, ?_, normVec_length games kv.2, ?_⟩
    · rw [normalize_eq_map]
      exact List.mem_map.mpr ⟨kv, hkv, rfl⟩
    · intro i hi
      rw [normVec_getD games kv.2 hi, featureMean_eq_specMean h,
        featureStd_eq_specStd h]
  · rintro i hi ⟨c, hc⟩ q hq
    rw [normalize_eq_map] at hq
    obtain ⟨kv, hkv, rfl⟩ := List.mem_map.mp hq
    show (normVec games kv.2).getD i 0 = 0
    rw [normVec_getD games kv.2 hi]
    have hmean : featureMean games i = c := by
      unfold featureMean
      rw [if_neg (featureVals_ne_nil h i)]
      have hrep : featureVals games i =
          List.replicate (featureVals games i).length c := by
        apply List.eq_replicate_of_mem
        intro b hb
        obtain ⟨kv', hkv', rfl⟩ := List.mem_map.mp hb
        exact hc kv' hkv'
      have hlen0 : (featureVals games i).length ≠ 0 := by
        simpa [List.length_eq_zero] using featureVals_ne_nil h i
      have hlen : ((featureVals games i).length : ℚ) ≠ 0 :=
        Nat.cast_ne_zero.mpr hlen0
      rw [hrep, List.sum_replicate, List.length_replicate, nsmul_eq_mul]
      exact mul_div_cancel_left₀ c hlen
    rw [hc kv hkv, hmean, sub_self, zero_div]

/-- Witness for C5 at a concrete two-game set. -/
theorem normalize_numeric_features_correct_witness :
    ([("g1", (default : Game)), ("g2", (default : Game))] ≠
      ([] : List (String × Game))) ∧
    NormalizeSpec [("g1", (default : Game)), ("g2", (default : Game))] :=
  ⟨by simp, normalize_numeric_features_correct _ (by simp)⟩

/-! ### C9: score bounded in [0,1] for records without numeric data -/

lemma lookup_map_pair {β : Type} (f : Game → β) {gs : List (String × Game)}
    (hnd : NodupKeys gs) {id : String} {g : Game} (hmem : (id, g) ∈ gs) :
    List.lookup id (gs.map (fun kv => (kv.1, f kv.2))) = some (f g) := by
  induction gs with
  | nil => cases hmem
  | cons kv rest ih =>
    have hnd' : (kv.1 :: keys rest).Nodup := hnd
    obtain ⟨h1, h2⟩ := List.nodup_cons.mp hnd'
    rcases List.mem_cons.mp hmem with heq | hmem'
    · subst heq
      simp [List.lookup_cons]
    · have hid : id ∈ keys rest := List.mem_map.mpr ⟨(id, g), hmem', rfl⟩
      have hne : (id == kv.1) = false :=
        beq_eq_false_iff_ne.mpr (fun e => h1 (e ▸ hid))
      simp only [List.map_cons, List.lookup_cons, hne]
      exact ih h2 hmem'

lemma lookupVec_normalize {gs : List (String × Game)} (hnd : NodupKeys gs)
    {id : String} {g : Game} (hmem : (id, g) ∈ gs) :
    lookupVec (normalize_numeric_features gs) id = normVec gs g := by
  unfold lookupVec
  rw [normalize_eq_map, lookup_map_pair (normVec gs) hnd hmem]
  rfl

lemma rawFeatures_of_noNumerics {g : Game} (hg : NoNumerics g) :
    rawFeatures g = [0, 0, 0, 0, 0, 0, 0] := by
  obtain ⟨h1, h2, h3, h4, h5, h6, h7⟩ := hg
  simp [rawFeatures, h1, h2, h3, h4, h5, h6, h7]

lemma cosine_self_cases (v : List ℝ) :
    cosine_similarity v v = 0 ∨ cosine_similarity v v = 1 := by
  by_cases hm : magnitude v = 0
  · left
    simp [cosine_similarity, hm]
  · right
    exact cosine_self_of_magnitude_ne_zero hm

/-- C9: for two game records with all seven numeric fields missing, with
their vectors produced by `normalize_numeric_features` over any game set
containing both, `compute_game_similarity` with the default weights
returns a score within `[0,1]`. -/
theorem game_similarity_score_in_unit_interval (gs : List (String × Game))
    (id1 id2 : String) (g1 g2 : Game) (hnd : NodupKeys gs)
    (h1 : (id1, g1) ∈ gs) (h2 : (id2, g2) ∈ gs)
    (hg1 : NoNumerics g1) (hg2 : NoNumerics g2) :
    ScoreInUnit gs id1 id2 g1 g2 := by
  have e1 := lookupVec_normalize hnd h1
  have e2 := lookupVec_normalize hnd h2
  have hvv : normVec gs g2 = normVec gs g1 := by
    unfold normVec
    rw [rawFeatures_of_noNumerics hg1, rawFeatures_of_noNumerics hg2]
  unfold ScoreInUnit
  rw [e1, e2, hvv]
  simp only [compute_game_similarity]
  have bm1 : (0 : ℝ) ≤ (jaccard_similarity (namesSet g1.mechanics) (namesSet g2.mechanics) : ℝ) := by
    exact_mod_cast jaccard_nonneg _ _
  have bm2 : (jaccard_similarity (namesSet g1.mechanics) (namesSet g2.mechanics) : ℝ) ≤ 1 := by
    exact_mod_cast jaccard_le_one _ _
  have bc1 : (0 : ℝ) ≤ (jaccard_similarity (namesSet g1.categories) (namesSet g2.categories) : ℝ) := by
    exact_mod_cast jaccard_nonneg _ _
  have bc2 : (jaccard_similarity (namesSet g1.categories) (namesSet g2.categories) : ℝ) ≤ 1 := by
    exact_mod_cast jaccard_le_one _ _
  have bd1 : (0 : ℝ) ≤ (jaccard_similarity (namesSet g1.designers) (namesSet g2.designers) : ℝ) := by
    exact_mod_cast jaccard_nonneg _ _
  have bd2 : (jaccard_similarity (namesSet g1.designers) (namesSet g2.designers) : ℝ) ≤ 1 := by
    exact_mod_cast jaccard_le_one _ _
  have bp1 : (0 : ℝ) ≤ (jaccard_similarity (namesSet g1.publishers) (namesSet g2.publishers) : ℝ) := by
    exact_mod_cast jaccard_nonneg _ _
  have bp2 : (jaccard_similarity (namesSet g1.publishers) (namesSet g2.publishers) : ℝ) ≤ 1 := by
    exact_mod_cast jaccard_le_one _ _
  rcases cosine_self_cases (normVec gs g1) with hc | hc <;> rw [hc] <;> constructor
  · apply div_nonneg (by linarith) (by norm_num)
  · rw [div_le_one (by norm_num)]
    linarith
  · apply div_nonneg (by linarith) (by norm_num)
  · rw [div_le_one (by norm_num)]
    linarith

/-- Witness for C9 at a concrete two-game set of all-missing records. -/
theorem game_similarity_score_in_unit_interval_witness :
    NodupKeys [("g1", (default : Game)), ("g2", (default : Game))] ∧
    ("g1", (default : Game)) ∈ [("g1", (default : Game)), ("g2", (default : Game))] ∧
    ("g2", (default : Game)) ∈ [("g1", (default : Game)), ("g2", (default : Game))] ∧
    NoNumerics (default : Game) ∧
    ScoreInUnit [("g1", (default : Game)), ("g2", (default : Game))] "g1" "g2"
      (default : Game) (default : Game) := by
  refine ⟨by simp [NodupKeys, keys], by simp, by simp,
    ⟨rfl, rfl, rfl, rfl, rfl, rfl, rfl⟩, ?_⟩
  exact game_similarity_score_in_unit_interval _ "g1" "g2" _ _
    (by simp [NodupKeys, keys]) (by simp) (by simp)
    ⟨rfl, rfl, rfl, rfl, rfl, rfl, rfl⟩ ⟨rfl, rfl, rfl, rfl, rfl, rfl, rfl⟩

/-! ### Lemmas about `allPairs` and the sorting comparator -/

lemma mem_allPairs {α : Type} {p : α × α} {l : List α} (h : p ∈ allPairs l) :
    p.1 ∈ l ∧ p.2 ∈ l := by
  induction l with
  | nil => cases h
  | cons x xs ih =>
    rcases List.mem_append.mp h with hmap | htail
    · obtain ⟨y, hy, rfl⟩ := List.mem_map.mp hmap
      exact ⟨List.mem_cons_self x xs, List.mem_cons_of_mem x hy⟩
    · obtain ⟨ha, hb⟩ := ih htail
      exact ⟨List.mem_cons_of_mem x ha, List.mem_cons_of_mem x hb⟩

lemma allPairs_complete {α : Type} {a b : α} {l : List α}
    (ha : a ∈ l) (hb : b ∈ l) (hne : a ≠ b) :
    (a, b) ∈ allPairs l ∨ (b, a) ∈ allPairs l := by
  induction l with
  | nil => cases ha
  | cons x xs ih =>
    rcases List.mem_cons.mp ha with rfl | ha'
    · have hb' : b ∈ xs := by
        rcases List.mem_cons.mp hb with rfl | hb'
        · exact absurd rfl hne
        · exact hb'
      exact Or.inl (List.mem_append.mpr (Or.inl (List.mem_map.mpr ⟨b, hb', rfl⟩)))
    · rcases List.mem_cons.mp hb with rfl | hb'
      · exact Or.inr (List.mem_append.mpr (Or.inl (List.mem_map.mpr ⟨a, ha', rfl⟩)))
      · rcases ih ha' hb' with h | h
        · exact Or.inl (List.mem_append.mpr (Or.inr h))
        · exact Or.inr (List.mem_append.mpr (Or.inr h))

lemma allPairs_not_swap {α : Type} {a b : α} {l : List α} (hnd : l.Nodup)
    (h : (a, b) ∈ allPairs l) : (b, a) ∉ allPairs l := by
  induction l with
  | nil => cases h
  | cons x xs ih =>
    obtain ⟨hx, hxs⟩ := List.nodup_cons.mp hnd
    intro hba
    rcases List.mem_append.mp h with hmap | htail
    · obtain ⟨y, hy, heq⟩ := List.mem_map.mp hmap
      injection heq with h1 h2
      subst h1
      subst h2
      rcases List.mem_append.mp hba with hmap' | htail'
      · obtain ⟨z, hz, heq'⟩ := List.mem_map.mp hmap'
        injection heq' with h3 h4
        apply hx
        rw [h3]
        exact hy
      · exact hx ((mem_allPairs htail').2)
    · rcases List.mem_append.mp hba with hmap' | htail'
      · obtain ⟨z, hz, heq'⟩ := List.mem_map.mp hmap'
        injection heq' with h3 h4
        apply hx
        rw [h3]
        exact (mem_allPairs htail).2
      · exact ih hxs htail htail'

lemma allPairs_ne {α : Type} {a b : α} {l : List α} (hnd : l.Nodup)
    (h : (a, b) ∈ allPairs l) : a ≠ b := by
  rintro rfl
  exact allPairs_not_swap hnd h h

lemma allPairs_nodup {α : Type} {l : List α} (hnd : l.Nodup) :
    (allPairs l).Nodup := by
  induction l with
  | nil => exact List.nodup_nil
  | cons x xs ih =>
    obtain ⟨hx, hxs⟩ := List.nodup_cons.mp hnd
    rw [allPairs, List.nodup_append]
    refine ⟨List.Nodup.map (fun y z h => congrArg Prod.snd h) hxs, ih hxs, ?_⟩
    intro p hp hp'
    obtain ⟨y, hy, rfl⟩ := List.mem_map.mp hp
    exact hx ((mem_allPairs hp').1)

lemma sorted_mergeSort_scoreLe {α : Type} (f : α → ℝ) (l : List α) :
    List.Sorted (fun a b => f b ≤ f a) (l.mergeSort (scoreLe f)) := by
  have h : List.Pairwise (fun a b => scoreLe f a b = true) (l.mergeSort (scoreLe f)) := by
    apply List.sorted_mergeSort
    · intro a b c hab hbc
      simp only [scoreLe, decide_eq_true_eq] at hab hbc ⊢
      exact le_trans hbc hab
    · intro a b
      simp only [scoreLe, Bool.or_eq_true, decide_eq_true_eq]
      exact le_total (f b) (f a)
  exact h.imp (fun hab => of_decide_eq_true hab)

lemma map_fst_filterMap_sublist {α β : Type} (f : α → Option β) (g : β → α)
    (hf : ∀ p e, f p = some e → g e = p) (l : List α) :
    ((l.filterMap f).map g).Sublist l := by
  induction l with
  | nil => simp
  | cons x xs ih =>
    rw [List.filterMap_cons]
    cases hx : f x with
    | none => exact ih.cons x
    | some e =>
      rw [List.map_cons, hf x e hx]
      exact ih.cons₂ x

/-! ### C1: `compute_similarity_edges` -/

lemma compute_game_similarity_comm (g1 g2 : Game) (v1 v2 : List ℝ)
    (mw cw nw dw pw : ℝ) :
    compute_game_similarity g1 g2 v1 v2 mw cw nw dw pw =
    compute_game_similarity g2 g1 v2 v1 mw cw nw dw pw := by
  simp only [compute_game_similarity]
  rw [jaccard_comm (namesSet g1.mechanics), jaccard_comm (namesSet g1.categories),
    jaccard_comm (namesSet g1.designers), jaccard_comm (namesSet g1.publishers),
    cosine_comm v1 v2]

lemma edgeScore_comm (games : List (String × Game)) (nf : List (String × List ℝ))
    (mw cw nw dw pw : ℝ) (a b : String) :
    edgeScore games nf mw cw nw dw pw a b = edgeScore games nf mw cw nw dw pw b a :=
  compute_game_similarity_comm _ _ _ _ _ _ _ _ _

/-- C1: over a mapping with distinct keys, `compute_similarity_edges`
normalizes once over the whole set, considers every unordered pair of
distinct ids exactly once, returns exactly the triples whose score reaches
the threshold (both ids from the input, never a self-pair), sorted by
score descending. -/
theorem similarity_edges_correct (games : List (String × Game))
    (hnd : NodupKeys games) (t mw cw nw dw pw : ℝ) :
    EdgesSpec games t mw cw nw dw pw := by
  set nf := normalize_numeric_features games with hnf
  set S := edgeScore games nf mw cw nw dw pw with hS
  set f : String × String → Option (String × String × ℝ) :=
    (fun p => if t ≤ S p.1 p.2 then some (p.1, p.2, S p.1 p.2) else none) with hfdef
  have hes : compute_similarity_edges games t mw cw nw dw pw =
      ((allPairs (keys games)).filterMap f).mergeSort
        (scoreLe (fun e => e.2.2)) := rfl
  have hsome : ∀ p e, f p = some e → t ≤ S p.1 p.2 ∧ e = (p.1, p.2, S p.1 p.2) := by
    intro p e hfp
    simp only [hfdef] at hfp
    by_cases hc : t ≤ S p.1 p.2
    · rw [if_pos hc] at hfp
      exact ⟨hc, (Option.some.inj hfp).symm⟩
    · rw [if_neg hc] at hfp
      cases hfp
  have hfst : ∀ p e, f p = some e → (e.1, e.2.1) = p := by
    intro p e hfp
    obtain ⟨_, rfl⟩ := hsome p e hfp
    rfl
  have hknd : (keys games).Nodup := hnd
  have hsub : (((allPairs (keys games)).filterMap f).map
      (fun e => (e.1, e.2.1))).Sublist (allPairs (keys games)) :=
    map_fst_filterMap_sublist f (fun e => (e.1, e.2.1)) hfst _
  have hpermmap : ((compute_similarity_edges games t mw cw nw dw pw).map
        (fun e => (e.1, e.2.1))).Perm
      (((allPairs (keys games)).filterMap f).map (fun e => (e.1, e.2.1))) := by
    rw [hes]
    exact (List.mergeSort_perm _ _).map _
  refine ⟨?_, ?_, ?_, ?_, ?_⟩
  · intro e he
    rw [hes] at he
    obtain ⟨p, hp, hfp⟩ := List.mem_filterMap.mp (List.mem_mergeSort.mp he)
    obtain ⟨hth, rfl⟩ := hsome p e hfp
    obtain ⟨hpa, hpb⟩ := mem_allPairs hp
    exact ⟨allPairs_ne hknd hp, hpa, hpb, hth, rfl⟩
  · intro a b ha hb hne hth
    rcases allPairs_complete ha hb hne with hp | hp
    · left
      rw [hes]
      apply List.mem_mergeSort.mpr
      apply List.mem_filterMap.mpr
      refine ⟨(a, b), hp, ?_⟩
      simp only [hfdef]
      rw [if_pos hth]
    · right
      have hth' : t ≤ S b a := by
        rw [hS]
        rw [← edgeScore_comm games nf mw cw nw dw pw a b]
        exact hth
      rw [hes]
      apply List.mem_mergeSort.mpr
      apply List.mem_filterMap.mpr
      refine ⟨(b, a), hp, ?_⟩
      simp only [hfdef]
      rw [if_pos hth']
  · exact hpermmap.symm.nodup (hsub.nodup (allPairs_nodup hknd))
  · intro a b hab hba
    have hab' := hsub.subset (hpermmap.mem_iff.mp hab)
    have hba' := hsub.subset (hpermmap.mem_iff.mp hba)
    exact allPairs_not_swap hknd hab' hba'
  · rw [hes]
    exact sorted_mergeSort_scoreLe (fun e : String × String × ℝ => e.2.2) _

/-- Witness for C1 at a concrete two-game mapping. -/
theorem similarity_edges_correct_witness :
    NodupKeys [("g1", (default : Game)), ("g2", (default : Game))] ∧
    EdgesSpec [("g1", (default : Game)), ("g2", (default : Game))]
      0.35 0.4 0.25 0.2 0.1 0.05 :=
  ⟨by simp [NodupKeys, keys],
    similarity_edges_correct _ (by simp [NodupKeys, keys]) 0.35 0.4 0.25 0.2 0.1 0.05⟩

/-! ### C3, C6: `compute_cross_similarities` -/

lemma cross_eq_map (owned cands : List (String × Game)) (k : ℕ)
    (mw cw nw dw pw : ℝ) :
    compute_cross_similarities owned cands k mw cw nw dw pw =
      owned.map (fun og =>
        (og.1, ((cands.filterMap (fun cg =>
          if cg.1 ∈ keys owned then none
          else some ⟨cg.1, cg.2.name,
            compute_game_similarity og.2 cg.2
              (lookupVec (normalize_numeric_features (dictMerge owned cands)) og.1)
              (lookupVec (normalize_numeric_features (dictMerge owned cands)) cg.1)
              mw cw nw dw pw,
            "https://boardgamegeek.com/boardgame/" ++ cg.1⟩)).mergeSort
          (scoreLe RecEntry.score)).take k)) := rfl

lemma mem_cross_entry {owned cands : List (String × Game)} {k : ℕ}
    {mw cw nw dw pw : ℝ} {p : String × List RecEntry}
    (hp : p ∈ compute_cross_similarities owned cands k mw cw nw dw pw)
    {e : RecEntry} (he : e ∈ p.2) :
    ∃ cg ∈ cands, cg.1 ∉ keys owned ∧ e.id = cg.1 ∧ e.name = cg.2.name ∧
      e.bggUrl = "https://boardgamegeek.com/boardgame/" ++ cg.1 := by
  rw [cross_eq_map] at hp
  obtain ⟨og, hog, rfl⟩ := List.mem_map.mp hp
  have he' := List.mem_mergeSort.mp (List.take_subset _ _ he)
  obtain ⟨cg, hcg, hfe⟩ := List.mem_filterMap.mp he'
  by_cases hc : cg.1 ∈ keys owned
  · rw [if_pos hc] at hfe
    cases hfe
  · rw [if_neg hc] at hfe
    obtain rfl := Option.some.inj hfe
    exact ⟨cg, hcg, hc, rfl, rfl, rfl⟩

/-- C3: the mapping returned by `compute_cross_similarities` has every
owned game id as a key (an empty list when that game has zero eligible
candidates), and each value is at most `top_k` entries carrying candidate
id, name and score, ordered by score descending. -/
theorem cross_similarities_shape (owned cands : List (String × Game)) (k : ℕ)
    (mw cw nw dw pw : ℝ) : CrossSpec owned cands k mw cw nw dw pw := by
  constructor
  · rw [cross_eq_map, keys, keys, List.map_map]
    rfl
  · intro p hp
    refine ⟨?_, ?_, fun e he => ?_, ?_⟩
    · rw [cross_eq_map] at hp
      obtain ⟨og, hog, rfl⟩ := List.mem_map.mp hp
      rw [List.length_take]
      exact min_le_left _ _
    · rw [cross_eq_map] at hp
      obtain ⟨og, hog, rfl⟩ := List.mem_map.mp hp
      exact List.Pairwise.sublist (List.take_sublist _ _)
        (sorted_mergeSort_scoreLe RecEntry.score _)
    · obtain ⟨cg, hcg, _, h1, h2, h3⟩ := mem_cross_entry hp he
      exact ⟨cg, hcg, h1, h2, h3⟩
    · intro hall
      rw [cross_eq_map] at hp
      obtain ⟨og, hog, rfl⟩ := List.mem_map.mp hp
      show (List.take k _) = []
      have hnil : (cands.filterMap (fun cg =>
          if cg.1 ∈ keys owned then none
          else some (⟨cg.1, cg.2.name,
            compute_game_similarity og.2 cg.2
              (lookupVec (normalize_numeric_features (dictMerge owned cands)) og.1)
              (lookupVec (normalize_numeric_features (dictMerge owned cands)) cg.1)
              mw cw nw dw pw,
            "https://boardgamegeek.com/boardgame/" ++ cg.1⟩ : RecEntry))) = [] := by
        rw [List.filterMap_eq_nil_iff]
        intro cg hcg
        rw [if_pos (hall cg hcg)]
      rw [hnil, List.mergeSort_nil, List.take_nil]

/-- Witness for C3 at a concrete input. -/
theorem cross_similarities_shape_witness :
    CrossSpec [("a", (default : Game))] [("b", (default : Game))]
      5 0.4 0.25 0.2 0.1 0.05 :=
  cross_similarities_shape _ _ 5 0.4 0.25 0.2 0.1 0.05

/-- C6: a game id appearing in both the owned and the candidate mappings is
skipped as a candidate, so it never appears in its own recommendation
list. -/
theorem cross_similarities_no_self_recommendation
    (owned cands : List (String × Game)) (k : ℕ) (mw cw nw dw pw : ℝ)
    (id : String) (h1 : id ∈ keys owned) (h2 : id ∈ keys cands) :
    SelfExclusionSpec owned cands k mw cw nw dw pw id := by
  intro l hl e he
  obtain ⟨cg, _, hnotowned, hid, _, _⟩ :=
    mem_cross_entry (p := (id, l)) hl he
  intro heq
  apply hnotowned
  rw [← hid, heq]
  exact h1

/-- Witness for C6: a game present in both mappings. -/
theorem cross_similarities_no_self_recommendation_witness :
    "a" ∈ keys [("a", (default : Game))] ∧
    "a" ∈ keys [("a", (default : Game)), ("b", (default : Game))] ∧
    SelfExclusionSpec [("a", (default : Game))]
      [("a", (default : Game)), ("b", (default : Game))]
      5 0.4 0.25 0.2 0.1 0.05 "a" :=
  ⟨by simp [keys], by simp [keys],
    cross_similarities_no_self_recommendation _ _ 5 0.4 0.25 0.2 0.1 0.05 "a"
      (by simp [keys]) (by simp [keys])⟩

/-! ### C10: `find_similar_owned_games` -/

/-- C10: `find_similar_owned_games` normalizes the owned games together
with the target (under the key "target") and returns at most `top_k`
entries, each carrying the id, name and similarity score of an owned
game, sorted by score descending. -/
theorem find_similar_owned_games_shape (target : Game)
    (owned : List (String × Game)) (k : ℕ) (mw cw nw dw pw : ℝ) :
    FindSpec target owned k mw cw nw dw pw := by
  have hr : find_similar_owned_games target owned k mw cw nw dw pw =
      ((owned.map (fun og =>
        (⟨og.1, og.2.name,
          compute_game_similarity target og.2
            (lookupVec (normalize_numeric_features
              (dictMerge owned [("target", target)])) "target")
            (lookupVec (normalize_numeric_features
              (dictMerge owned [("target", target)])) og.1)
            mw cw nw dw pw⟩ : SimEntry))).mergeSort
        (scoreLe SimEntry.score)).take k := rfl
  refine ⟨?_, ?_, ?_⟩
  · rw [hr, List.length_take]
    exact min_le_left _ _
  · rw [hr]
    exact List.Pairwise.sublist (List.take_sublist _ _)
      (sorted_mergeSort_scoreLe SimEntry.score _)
  · intro e he
    rw [hr] at he
    have he' := List.mem_mergeSort.mp (List.take_subset _ _ he)
    obtain ⟨og, hog, rfl⟩ := List.mem_map.mp he'
    exact ⟨og, hog, rfl, rfl, rfl⟩

/-- Witness for C10 at a concrete input. -/
theorem find_similar_owned_games_shape_witness :
    FindSpec (default : Game) [("g1", (default : Game))] 10
      0.4 0.25 0.2 0.1 0.05 :=
  find_similar_owned_games_shape _ _ 10 0.4 0.25 0.2 0.1 0.05

/-- Witness for C2's amended statement at a concrete owned mapping. -/
theorem cross_similarities_empty_candidates_witness :
    compute_cross_similarities [("a", (default : Game))] [] 5
      0.4 0.25 0.2 0.1 0.05 = [("a", [])] := by
  rw [cross_similarities_empty_candidates]
  rfl

/-- Witness for C4's amended statement at concrete records. -/
theorem game_similarity_ignores_blank_names_witness :
    compute_game_similarity (scrubBlanks gMechUpper) (scrubBlanks gMechLower)
      [] [] 0.4 0.25 0.2 0.1 0.05 =
    compute_game_similarity gMechUpper gMechLower [] [] 0.4 0.25 0.2 0.1 0.05 :=
  game_similarity_ignores_blank_names gMechUpper gMechLower [] []
    0.4 0.25 0.2 0.1 0.05
